import Mathlib

/-!
Verification of the Replit Database client (Deno) against its
natural-language specification.

The development shallowly embeds the client code of `src/mod.ts`
(`ReplitDatabaseClient`): JSON values are an inductive type, the JSON
codec (an external platform capability, per the spec's collaborator
contracts) is modelled by an executable serializer and parser, HTTP
responses are explicit records, and the network is an oracle function
supplied to each operation.  Every stateful loop of the source
(batch delete, table-form set, list) becomes a recursive function that
also returns the trace of keys it attempted and fetched, so that
ordering and abort properties can be stated.
-/

namespace ReplitDb

/-- JSON values, as stored and transported by the client.  Numbers are
modelled as integers (the client never produces fractional literals in
any claim under verification; floating-point formatting is outside the
embedding). -/
inductive Json where
  | null
  | bool (b : Bool)
  | num (n : Int)
  | str (s : String)
  | arr (elems : List Json)
  | obj (fields : List (String × Json))
deriving Repr

/-- The character of a decimal digit value. -/
def digitToChar (d : Nat) : Char := Char.ofNat (48 + d)

/-- The value of a decimal digit character. -/
def digitVal (c : Char) : Nat := c.toNat - 48

/-- Whether a character is a decimal digit. -/
def isDigitChar (c : Char) : Bool := decide (48 ≤ c.toNat ∧ c.toNat ≤ 57)

/-- The character of a hexadecimal digit value (lowercase letters). -/
def hexToChar (d : Nat) : Char :=
  if d < 10 then Char.ofNat (48 + d) else Char.ofNat (87 + d)

/-- The value of a hexadecimal digit character. -/
def hexVal (c : Char) : Nat :=
  if 48 ≤ c.toNat ∧ c.toNat ≤ 57 then c.toNat - 48
  else if 97 ≤ c.toNat ∧ c.toNat ≤ 102 then c.toNat - 87
  else c.toNat - 55

/-- Whether a character is a hexadecimal digit. -/
def isHexChar (c : Char) : Bool :=
  decide ((48 ≤ c.toNat ∧ c.toNat ≤ 57) ∨ (97 ≤ c.toNat ∧ c.toNat ≤ 102) ∨
    (65 ≤ c.toNat ∧ c.toNat ≤ 70))

/-- Decimal rendering of a natural number (most significant digit first),
the digit sequence `JSON.stringify` emits for a non-negative integer. -/
def natChars (m : Nat) : List Char :=
  if m = 0 then ['0'] else (Nat.digits 10 m).reverse.map digitToChar

/-- Decimal rendering of an integer, as `JSON.stringify` prints it. -/
def intChars (n : Int) : List Char :=
  if n < 0 then '-' :: natChars n.natAbs else natChars n.toNat

/-- Modelled from the spec: the JSON codec capability
(`JSON.stringify` string escaping).  The escape sequence emitted for one
character of a string literal: quote, backslash and the named control
escapes, then a `\u00..` escape for the remaining control characters,
and every other character literally. -/
def escapeChar (c : Char) : List Char :=
  if c = '"' then ['\\', '"']
  else if c = '\\' then ['\\', '\\']
  else if c = '\n' then ['\\', 'n']
  else if c = '\r' then ['\\', 'r']
  else if c = '\t' then ['\\', 't']
  else if c.toNat = 8 then ['\\', 'b']
  else if c.toNat = 12 then ['\\', 'f']
  else if c.toNat < 32 then
    ['\\', 'u', '0', '0', hexToChar (c.toNat / 16), hexToChar (c.toNat % 16)]
  else [c]

/-- Escape every character of a string body. -/
def escapeList : List Char → List Char
  | [] => []
  | c :: cs => escapeChar c ++ escapeList cs

mutual

/-- Modelled from the spec: the JSON codec capability (`JSON.stringify`),
restricted to the `Json` model: `null`/`true`/`false` keywords, decimal
integers, double-quoted escaped strings, comma-separated arrays in
square brackets and objects in curly brackets, with no insignificant
whitespace (which `JSON.stringify` never emits). -/
def stringifyChars : Json → List Char
  | .null => 'n' :: 'u' :: 'l' :: 'l' :: []
  | .bool true => 't' :: 'r' :: 'u' :: 'e' :: []
  | .bool false => 'f' :: 'a' :: 'l' :: 's' :: 'e' :: []
  | .num n => intChars n
  | .str s => '"' :: escapeList s.data ++ ['"']
  | .arr xs => '[' :: stringifyList xs ++ [']']
  | .obj kvs => '\x7b' :: stringifyFields kvs ++ ['\x7d']

/-- Comma-separated serialization of array elements. -/
def stringifyList : List Json → List Char
  | [] => []
  | [x] => stringifyChars x
  | x :: y :: xs => stringifyChars x ++ ',' :: stringifyList (y :: xs)

/-- Comma-separated serialization of object fields. -/
def stringifyFields : List (String × Json) → List Char
  | [] => []
  | [(k, v)] => '"' :: escapeList k.data ++ '"' :: ':' :: stringifyChars v
  | (k, v) :: f :: kvs =>
      '"' :: escapeList k.data ++ '"' :: ':' :: stringifyChars v ++
        ',' :: stringifyFields (f :: kvs)

end

/-- Serialized JSON text of a value (`JSON.stringify`). -/
def Json.stringify (v : Json) : String := String.mk (stringifyChars v)

/-- Modelled from the spec: the JSON codec capability (`JSON.parse`),
string-body parser.  Reads characters up to the closing quote, decoding
the backslash escapes; raw control characters are a syntax error, as in
JSON. -/
def parseStringBody : List Char → Option (List Char × List Char)
  | [] => none
  | c :: rest =>
    if c = '"' then some ([], rest)
    else if c = '\\' then
      match rest with
      | [] => none
      | e :: rest2 =>
        if e = '"' then (fun p => ('"' :: p.1, p.2)) <$> parseStringBody rest2
        else if e = '\\' then (fun p => ('\\' :: p.1, p.2)) <$> parseStringBody rest2
        else if e = '/' then (fun p => ('/' :: p.1, p.2)) <$> parseStringBody rest2
        else if e = 'n' then (fun p => ('\n' :: p.1, p.2)) <$> parseStringBody rest2
        else if e = 'r' then (fun p => ('\r' :: p.1, p.2)) <$> parseStringBody rest2
        else if e = 't' then (fun p => ('\t' :: p.1, p.2)) <$> parseStringBody rest2
        else if e = 'b' then
          (fun p => (Char.ofNat 8 :: p.1, p.2)) <$> parseStringBody rest2
        else if e = 'f' then
          (fun p => (Char.ofNat 12 :: p.1, p.2)) <$> parseStringBody rest2
        else if e = 'u' then
          match rest2 with
          | h1 :: h2 :: h3 :: h4 :: rest3 =>
            if isHexChar h1 && isHexChar h2 && isHexChar h3 && isHexChar h4 then
              (fun p =>
                (Char.ofNat
                  (hexVal h1 * 4096 + hexVal h2 * 256 + hexVal h3 * 16 + hexVal h4)
                  :: p.1, p.2)) <$> parseStringBody rest3
            else none
          | _ => none
        else none
    else if c.toNat < 32 then none
    else (fun p => (c :: p.1, p.2)) <$> parseStringBody rest

/-- Accumulating decimal-digit reader: consumes the longest digit run,
folding it into the accumulator. -/
def parseDigits : List Char → Nat → Nat × List Char
  | [], acc => (acc, [])
  | c :: rest, acc =>
    if isDigitChar c then parseDigits rest (acc * 10 + digitVal c)
    else (acc, c :: rest)

/-- Reads an expected literal character sequence off the input. -/
def expectChars : List Char → List Char → Option (List Char)
  | [], cs => some cs
  | e :: es, c :: cs => if c = e then expectChars es cs else none
  | _ :: _, [] => none

/-- Parses a negated integer literal (the input follows the minus sign). -/
def parseNegNum : List Char → Option (Json × List Char)
  | [] => none
  | d :: r2 =>
    if isDigitChar d then
      some (Json.num (-(Int.ofNat (parseDigits r2 (digitVal d)).1)),
        (parseDigits r2 (digitVal d)).2)
    else none

/-- Parses an atomic JSON value: keyword, string or integer literal. -/
def parseAtom : List Char → Option (Json × List Char)
  | [] => none
  | c :: rest =>
    if c = 'n' then (expectChars ['u', 'l', 'l'] rest).map (fun r => (Json.null, r))
    else if c = 't' then
      (expectChars ['r', 'u', 'e'] rest).map (fun r => (Json.bool true, r))
    else if c = 'f' then
      (expectChars ['a', 'l', 's', 'e'] rest).map (fun r => (Json.bool false, r))
    else if c = '"' then
      (parseStringBody rest).map (fun p => (Json.str (String.mk p.1), p.2))
    else if c = '-' then parseNegNum rest
    else if isDigitChar c then
      some (Json.num (Int.ofNat (parseDigits rest (digitVal c)).1),
        (parseDigits rest (digitVal c)).2)
    else none

mutual

/-- Modelled from the spec: the JSON codec capability (`JSON.parse`),
value parser with fuel (the fuel only bounds recursion; any fuel at
least `needVal` of the parsed value suffices).  Returns the value and
the unconsumed suffix. -/
def parseVal : Nat → List Char → Option (Json × List Char)
  | 0, _ => none
  | fuel + 1, cs =>
    match cs with
    | [] => none
    | c :: rest =>
      if c = '[' then
        match parseElems fuel rest with
        | some p => some (Json.arr p.1, p.2)
        | none => none
      else if c = '\x7b' then
        match parseFields fuel rest with
        | some p => some (Json.obj p.1, p.2)
        | none => none
      else parseAtom (c :: rest)

/-- Array-element parser: input follows the opening bracket; parses the
comma-separated elements and the closing bracket. -/
def parseElems : Nat → List Char → Option (List Json × List Char)
  | 0, _ => none
  | fuel + 1, cs =>
    match cs with
    | [] => none
    | c :: rest =>
      if c = ']' then some ([], rest)
      else
        match parseVal fuel (c :: rest) with
        | none => none
        | some (v, r) =>
          match r with
          | [] => none
          | s :: r2 =>
            if s = ',' then (parseElems fuel r2).map (fun p => (v :: p.1, p.2))
            else if s = ']' then some ([v], r2)
            else none

/-- Object-field parser: input follows the opening brace; parses the
comma-separated quoted-key/value fields and the closing brace. -/
def parseFields : Nat → List Char → Option (List (String × Json) × List Char)
  | 0, _ => none
  | fuel + 1, cs =>
    match cs with
    | [] => none
    | c :: rest =>
      if c = '\x7d' then some ([], rest)
      else if c = '"' then
        match parseStringBody rest with
        | none => none
        | some (kl, r1) =>
          match r1 with
          | [] => none
          | s1 :: r2 =>
            if s1 = ':' then
              match parseVal fuel r2 with
              | none => none
              | some (v, r3) =>
                match r3 with
                | [] => none
                | s2 :: r4 =>
                  if s2 = ',' then
                    (parseFields fuel r4).map (fun p => ((String.mk kl, v) :: p.1, p.2))
                  else if s2 = '\x7d' then some ([(String.mk kl, v)], r4)
                  else none
            else none
      else none

end

mutual

/-- Fuel sufficient for `parseVal` to parse the serialization of a value. -/
def needVal : Json → Nat
  | .arr xs => 1 + needElems xs
  | .obj kvs => 1 + needFields kvs
  | .null => 1
  | .bool _ => 1
  | .num _ => 1
  | .str _ => 1

/-- Fuel sufficient for `parseElems` on a serialized element list. -/
def needElems : List Json → Nat
  | x :: xs => 1 + max (needVal x) (needElems xs)
  | [] => 1

/-- Fuel sufficient for `parseFields` on a serialized field list. -/
def needFields : List (String × Json) → Nat
  | (_, w) :: tl => 1 + max (needVal w) (needFields tl)
  | [] => 1

end

/-- Modelled from the spec: the JSON codec capability (`JSON.parse`).
Succeeds only when the whole input is one JSON value, like `JSON.parse`. -/
def Json.parse (s : String) : Option Json :=
  match parseVal (s.length + 1) s.data with
  | some (v, []) => some v
  | _ => none

/-- Whether a character list does not start with a decimal digit, the
delimiter condition under which the number parser stops exactly at a
serialized integer. -/
def noDigitHead : List Char → Bool
  | [] => true
  | c :: _ => !(isDigitChar c)

/-- Char.ofNat round-trips on code points below the surrogate range. -/
theorem toNat_charOfNat (n : Nat) (h : n < 55296) : (Char.ofNat n).toNat = n := by
  have hv : n.isValidChar := Or.inl h
  rw [Char.ofNat, dif_pos hv]
  rfl

/-- Characters with different code points are different. -/
theorem char_ne_of_toNat_ne (c d : Char) (h : c.toNat ≠ d.toNat) : c ≠ d :=
  fun he => h (by rw [he])

/-- Code point of a rendered decimal digit. -/
theorem toNat_digitToChar (d : Nat) (h : d < 10) : (digitToChar d).toNat = 48 + d :=
  toNat_charOfNat (48 + d) (by omega)

/-- A rendered decimal digit is a digit character. -/
theorem isDigitChar_digitToChar (d : Nat) (h : d < 10) :
    isDigitChar (digitToChar d) = true := by
  simp [isDigitChar, toNat_digitToChar d h]
  omega

/-- Value of a rendered decimal digit. -/
theorem digitVal_digitToChar (d : Nat) (h : d < 10) : digitVal (digitToChar d) = d := by
  simp [digitVal, toNat_digitToChar d h]

/-- A rendered hexadecimal digit is a hexadecimal digit character. -/
theorem isHexChar_hexToChar (d : Nat) (h : d < 16) :
    isHexChar (hexToChar d) = true := by
  unfold hexToChar
  by_cases h10 : d < 10
  · rw [if_pos h10]
    simp [isHexChar, toNat_charOfNat (48 + d) (by omega)]
    omega
  · rw [if_neg h10]
    simp [isHexChar, toNat_charOfNat (87 + d) (by omega)]
    omega

/-- Value of a rendered hexadecimal digit. -/
theorem hexVal_hexToChar (d : Nat) (h : d < 16) : hexVal (hexToChar d) = d := by
  unfold hexToChar hexVal
  by_cases h10 : d < 10
  · rw [if_pos h10, toNat_charOfNat (48 + d) (by omega)]
    rw [if_pos (by omega)]
    omega
  · rw [if_neg h10, toNat_charOfNat (87 + d) (by omega)]
    rw [if_neg (by omega), if_pos (by omega)]
    omega

/-- The rendering of a natural number is never empty. -/
theorem natChars_ne_nil (m : Nat) : natChars m ≠ [] := by
  unfold natChars
  by_cases h : m = 0
  · simp [h]
  · rw [if_neg h]
    simp [Nat.digits_ne_nil_iff_ne_zero.mpr h]

/-- Every character of a rendered natural number is a decimal digit. -/
theorem natChars_digits (m : Nat) : ∀ c ∈ natChars m, isDigitChar c = true := by
  unfold natChars
  by_cases h : m = 0
  · simp [h]
    decide
  · rw [if_neg h]
    intro c hc
    obtain ⟨d, hd, rfl⟩ := List.mem_map.mp hc
    have hd10 : d < 10 :=
      Nat.digits_lt_base (by omega) (List.mem_reverse.mp hd)
    exact isDigitChar_digitToChar d hd10

/-- The digit reader consumes exactly a digit run followed by a
non-digit, folding the run into the accumulator. -/
theorem parseDigits_append (ds : List Char) (h : ∀ c ∈ ds, isDigitChar c = true)
    (rest : List Char) (hr : noDigitHead rest = true) :
    ∀ acc : Nat, parseDigits (ds ++ rest) acc =
      (ds.foldl (fun a c => a * 10 + digitVal c) acc, rest) := by
  induction ds with
  | nil =>
    intro acc
    cases rest with
    | nil => simp [parseDigits]
    | cons c r =>
      simp [noDigitHead] at hr
      simp [parseDigits, hr]
  | cons d ds ih =>
    intro acc
    have hd : isDigitChar d = true := h d (List.mem_cons_self d ds)
    simp only [List.cons_append, parseDigits, hd, if_true, List.foldl_cons]
    exact ih (fun c hc => h c (List.mem_cons_of_mem d hc)) _

/-- Folding rendered digits is folding the digit values. -/
theorem foldl_map_digitToChar (L : List Nat) (h : ∀ d ∈ L, d < 10) :
    ∀ acc : Nat, (L.map digitToChar).foldl (fun a c => a * 10 + digitVal c) acc =
      L.foldl (fun a d => a * 10 + d) acc := by
  induction L with
  | nil => intro acc; simp
  | cons d L ih =>
    intro acc
    simp only [List.map_cons, List.foldl_cons,
      digitVal_digitToChar d (h d (List.mem_cons_self d L))]
    exact ih (fun x hx => h x (List.mem_cons_of_mem d hx)) _

/-- Folding most-significant-first digit values recovers the number. -/
theorem foldr_eq_ofDigits (L : List Nat) :
    L.foldr (fun d a => a * 10 + d) 0 = Nat.ofDigits 10 L := by
  induction L with
  | nil => simp [Nat.ofDigits_nil]
  | cons d L ih =>
    simp only [List.foldr_cons, ih, Nat.ofDigits_cons]
    ring

/-- Folding the rendering of a natural number recovers it. -/
theorem natChars_foldl (m : Nat) :
    (natChars m).foldl (fun a c => a * 10 + digitVal c) 0 = m := by
  unfold natChars
  by_cases h : m = 0
  · simp [h]
    decide
  · rw [if_neg h]
    rw [foldl_map_digitToChar _
      (fun d hd => Nat.digits_lt_base (by omega) (List.mem_reverse.mp hd))]
    rw [List.foldl_reverse]
    have : (Nat.digits 10 m).foldr (fun x y => y * 10 + x) 0 =
        (Nat.digits 10 m).foldr (fun d a => a * 10 + d) 0 := rfl
    rw [this, foldr_eq_ofDigits, Nat.ofDigits_digits]

/-- The string-body parser reads back exactly the escaped rendering of a
character list, stopping at the closing quote. -/
theorem parseStringBody_escape (l : List Char) (rest : List Char) :
    parseStringBody (escapeList l ++ '"' :: rest) = some (l, rest) := by
  induction l with
  | nil =>
    simp only [escapeList, List.nil_append]
    rw [parseStringBody.eq_def]
    simp
  | cons c cs ih =>
    show parseStringBody ((escapeChar c ++ escapeList cs) ++ '"' :: rest) = _
    unfold escapeChar
    by_cases h1 : c = '"'
    · subst h1
      simp only [List.cons_append, List.nil_append]
      rw [parseStringBody.eq_def]
      simp [ih]
    · rw [if_neg h1]
      by_cases h2 : c = '\\'
      · subst h2
        simp only [List.cons_append, List.nil_append]
        rw [parseStringBody.eq_def]
        simp [ih]
      · rw [if_neg h2]
        by_cases h3 : c = '\n'
        · subst h3
          simp only [List.cons_append, List.nil_append]
          rw [parseStringBody.eq_def]
          simp [ih]
        · rw [if_neg h3]
          by_cases h4 : c = '\r'
          · subst h4
            simp only [List.cons_append, List.nil_append]
            rw [parseStringBody.eq_def]
            simp [ih]
          · rw [if_neg h4]
            by_cases h5 : c = '\t'
            · subst h5
              simp only [List.cons_append, List.nil_append]
              rw [parseStringBody.eq_def]
              simp [ih]
            · rw [if_neg h5]
              by_cases h6 : c.toNat = 8
              · rw [if_pos h6]
                have hc : Char.ofNat 8 = c := by
                  rw [← h6, Char.ofNat_toNat]
                simp only [List.cons_append, List.nil_append]
                rw [parseStringBody.eq_def]
                simp [ih]
                exact hc
              · rw [if_neg h6]
                by_cases h7 : c.toNat = 12
                · rw [if_pos h7]
                  have hc : Char.ofNat 12 = c := by
                    rw [← h7, Char.ofNat_toNat]
                  simp only [List.cons_append, List.nil_append]
                  rw [parseStringBody.eq_def]
                  simp [ih]
                  exact hc
                · rw [if_neg h7]
                  by_cases h8 : c.toNat < 32
                  · rw [if_pos h8]
                    have hhi : isHexChar (hexToChar (c.toNat / 16)) = true :=
                      isHexChar_hexToChar _ (by omega)
                    have hlo : isHexChar (hexToChar (c.toNat % 16)) = true :=
                      isHexChar_hexToChar _ (by omega)
                    have hvi : hexVal (hexToChar (c.toNat / 16)) = c.toNat / 16 :=
                      hexVal_hexToChar _ (by omega)
                    have hvo : hexVal (hexToChar (c.toNat % 16)) = c.toNat % 16 :=
                      hexVal_hexToChar _ (by omega)
                    have hre : hexVal '0' * 4096 + hexVal '0' * 256 +
                        hexVal (hexToChar (c.toNat / 16)) * 16 +
                        hexVal (hexToChar (c.toNat % 16)) = c.toNat := by
                      rw [hvi, hvo]
                      have h0 : hexVal '0' = 0 := by decide
                      rw [h0]
                      omega
                    have hc : Char.ofNat (hexVal '0' * 4096 + hexVal '0' * 256 +
                        hexVal (hexToChar (c.toNat / 16)) * 16 +
                        hexVal (hexToChar (c.toNat % 16))) = c := by
                      rw [hre, Char.ofNat_toNat]
                    have h0x : isHexChar '0' = true := by decide
                    simp only [List.cons_append, List.nil_append]
                    rw [parseStringBody.eq_def]
                    simp [hhi, hlo, h0x, ih]
                    exact hc
                  · rw [if_neg h8]
                    simp only [List.cons_append, List.nil_append]
                    rw [parseStringBody.eq_def]
                    simp [if_neg h1, if_neg h2, if_neg h8, ih, h1, h2, h8]

/-- The digit-character test, in terms of code-point bounds. -/
theorem isDigitChar_iff (c : Char) :
    isDigitChar c = true ↔ 48 ≤ c.toNat ∧ c.toNat ≤ 57 := by
  simp [isDigitChar]

/-- Every value needs at least one unit of fuel. -/
theorem needVal_pos (v : Json) : 1 ≤ needVal v := by
  cases v <;> simp [needVal]

/-- Element lists need at least one unit of fuel. -/
theorem needElems_pos (xs : List Json) : 1 ≤ needElems xs := by
  cases xs <;> simp [needElems]

/-- Field lists need at least one unit of fuel. -/
theorem needFields_pos (kvs : List (String × Json)) : 1 ≤ needFields kvs := by
  cases kvs with
  | nil => simp [needFields]
  | cons kv kvs => obtain ⟨k, v⟩ := kv; simp [needFields]

/-- The serialization of a value is nonempty and starts with a character
that is neither a separator nor a closing bracket. -/
theorem stringify_head_not_sep (v : Json) :
    ∃ c cs, stringifyChars v = c :: cs ∧ c ≠ ',' ∧ c ≠ ']' ∧ c ≠ '\x7d' := by
  cases v with
  | null => exact ⟨'n', _, rfl, by decide⟩
  | bool b =>
    cases b with
    | true => exact ⟨'t', _, rfl, by decide⟩
    | false => exact ⟨'f', _, rfl, by decide⟩
  | str s => exact ⟨'"', _, rfl, by decide⟩
  | arr xs => exact ⟨'[', _, rfl, by decide⟩
  | obj kvs => exact ⟨'\x7b', _, rfl, by decide⟩
  | num n =>
    show ∃ c cs, intChars n = c :: cs ∧ _
    unfold intChars
    by_cases hn : n < 0
    · rw [if_pos hn]
      exact ⟨'-', _, rfl, by decide⟩
    · rw [if_neg hn]
      cases hn2 : natChars n.toNat with
      | nil => exact absurd hn2 (natChars_ne_nil _)
      | cons d ds =>
        have hd : isDigitChar d = true :=
          natChars_digits _ d (hn2 ▸ List.mem_cons_self d ds)
        have hb := (isDigitChar_iff d).mp hd
        refine ⟨d, ds, rfl, ?_, ?_, ?_⟩
        · exact char_ne_of_toNat_ne d ',' (by
            have : (',').toNat = 44 := by decide
            omega)
        · exact char_ne_of_toNat_ne d ']' (by
            have : (']').toNat = 93 := by decide
            omega)
        · exact char_ne_of_toNat_ne d '\x7d' (by
            have : ('\x7d').toNat = 125 := by decide
            omega)

/-- On input beginning with a digit run, the value parser reads the
non-negative integer folded from the run. -/
theorem parseVal_digit_head (f : Nat) (d : Char) (ds rest : List Char)
    (hd : isDigitChar d = true) (hds : ∀ c ∈ ds, isDigitChar c = true)
    (hrest : noDigitHead rest = true) :
    parseVal (f + 1) (d :: (ds ++ rest)) =
      some (.num (Int.ofNat ((d :: ds).foldl (fun a c => a * 10 + digitVal c) 0)),
        rest) := by
  have hb := (isDigitChar_iff d).mp hd
  have hn : d ≠ 'n' := char_ne_of_toNat_ne d 'n' (by
    have : ('n').toNat = 110 := by decide
    omega)
  have ht : d ≠ 't' := char_ne_of_toNat_ne d 't' (by
    have : ('t').toNat = 116 := by decide
    omega)
  have hf : d ≠ 'f' := char_ne_of_toNat_ne d 'f' (by
    have : ('f').toNat = 102 := by decide
    omega)
  have hq : d ≠ '"' := char_ne_of_toNat_ne d '"' (by
    have : ('"').toNat = 34 := by decide
    omega)
  have hlb : d ≠ '[' := char_ne_of_toNat_ne d '[' (by
    have : ('[').toNat = 91 := by decide
    omega)
  have hcb : d ≠ '\x7b' := char_ne_of_toNat_ne d '\x7b' (by
    have : ('\x7b').toNat = 123 := by decide
    omega)
  have hm : d ≠ '-' := char_ne_of_toNat_ne d '-' (by
    have : ('-').toNat = 45 := by decide
    omega)
  rw [parseVal.eq_def]
  simp only [if_neg hlb, if_neg hcb]
  rw [parseAtom.eq_def]
  simp only [if_neg hn, if_neg ht, if_neg hf, if_neg hq, if_neg hm, hd, if_true]
  rw [parseDigits_append ds hds rest hrest]
  simp

mutual

/-- The value parser reads back exactly the serialization of any value,
leaving an unconsumed suffix that does not start with a digit. -/
theorem parseVal_stringify (v : Json) : ∀ (fuel : Nat) (rest : List Char),
    needVal v ≤ fuel → noDigitHead rest = true →
    parseVal fuel (stringifyChars v ++ rest) = some (v, rest) := by
  intro fuel rest hfuel hrest
  cases fuel with
  | zero => exact absurd hfuel (by have := needVal_pos v; omega)
  | succ f =>
    cases v with
    | null =>
      rw [parseVal.eq_def]
      simp [stringifyChars, parseAtom, expectChars]
    | bool b =>
      cases b with
      | true =>
        rw [parseVal.eq_def]
        simp [stringifyChars, parseAtom, expectChars]
      | false =>
        rw [parseVal.eq_def]
        simp [stringifyChars, parseAtom, expectChars]
    | num n =>
      show parseVal (f + 1) (intChars n ++ rest) = _
      unfold intChars
      by_cases hneg : n < 0
      · rw [if_pos hneg]
        cases hn2 : natChars n.natAbs with
        | nil => exact absurd hn2 (natChars_ne_nil _)
        | cons d ds =>
          have hd : isDigitChar d = true :=
            natChars_digits _ d (hn2 ▸ List.mem_cons_self d ds)
          have hds : ∀ c ∈ ds, isDigitChar c = true := fun c hc =>
            natChars_digits _ c (hn2 ▸ List.mem_cons_of_mem d hc)
          have hfold : (d :: ds).foldl (fun a c => a * 10 + digitVal c) 0 =
              n.natAbs := by
            rw [← hn2, natChars_foldl]
          rw [List.foldl_cons] at hfold
          simp only [Nat.zero_mul, Nat.zero_add] at hfold
          rw [parseVal.eq_def]
          simp only [List.cons_append]
          simp [parseAtom, parseNegNum, hd, parseDigits_append ds hds rest hrest]
          omega
      · rw [if_neg hneg]
        cases hn2 : natChars n.toNat with
        | nil => exact absurd hn2 (natChars_ne_nil _)
        | cons d ds =>
          have hd : isDigitChar d = true :=
            natChars_digits _ d (hn2 ▸ List.mem_cons_self d ds)
          have hds : ∀ c ∈ ds, isDigitChar c = true := fun c hc =>
            natChars_digits _ c (hn2 ▸ List.mem_cons_of_mem d hc)
          have hfold : (d :: ds).foldl (fun a c => a * 10 + digitVal c) 0 =
              n.toNat := by
            rw [← hn2, natChars_foldl]
          rw [show (d :: ds) ++ rest = d :: (ds ++ rest) from rfl]
          rw [parseVal_digit_head f d ds rest hd hds hrest, hfold]
          have hcast : Int.ofNat n.toNat = n := by
            simp only [Int.ofNat_eq_coe]
            omega
          rw [hcast]
    | str s =>
      rw [parseVal.eq_def]
      simp only [stringifyChars, List.cons_append, List.append_assoc,
        List.nil_append]
      simp [parseAtom, parseStringBody_escape s.data rest]
    | arr xs =>
      have hx : needElems xs ≤ f := by
        simp [needVal] at hfuel
        omega
      rw [parseVal.eq_def]
      simp only [stringifyChars, List.cons_append, List.append_assoc,
        List.nil_append]
      simp [parseElems_stringify xs f rest hx]
    | obj kvs =>
      have hx : needFields kvs ≤ f := by
        simp [needVal] at hfuel
        omega
      rw [parseVal.eq_def]
      simp only [stringifyChars, List.cons_append, List.append_assoc,
        List.nil_append]
      simp [parseFields_stringify kvs f rest hx]

/-- The element parser reads back exactly the serialized elements up to
the closing bracket. -/
theorem parseElems_stringify (xs : List Json) : ∀ (fuel : Nat) (rest : List Char),
    needElems xs ≤ fuel →
    parseElems fuel (stringifyList xs ++ ']' :: rest) = some (xs, rest) := by
  intro fuel rest hfuel
  cases fuel with
  | zero => exact absurd hfuel (by have := needElems_pos xs; omega)
  | succ f =>
    cases xs with
    | nil =>
      rw [parseElems.eq_def]
      simp [stringifyList]
    | cons x xs =>
      simp only [needElems] at hfuel
      have hvx : needVal x ≤ f := by omega
      obtain ⟨c, cs', heq, hc1, hc2, hc3⟩ := stringify_head_not_sep x
      cases xs with
      | nil =>
        have hx := parseVal_stringify x f (']' :: rest) hvx (by rfl)
        rw [show stringifyList [x] = stringifyChars x from rfl, heq] at *
        rw [parseElems.eq_def]
        simp only [List.cons_append]
        rw [if_neg hc2]
        rw [show c :: (cs' ++ ']' :: rest) = (c :: cs') ++ ']' :: rest from rfl]
        rw [hx]
        simp
      | cons y ys =>
        have hys : needElems (y :: ys) ≤ f := by omega
        have hx := parseVal_stringify x f
          (',' :: (stringifyList (y :: ys) ++ ']' :: rest)) hvx (by rfl)
        have hrec := parseElems_stringify (y :: ys) f rest hys
        rw [show stringifyList (x :: y :: ys) =
          stringifyChars x ++ ',' :: stringifyList (y :: ys) from rfl, heq] at *
        rw [parseElems.eq_def]
        simp only [List.cons_append, List.append_assoc]
        rw [if_neg hc2]
        rw [show c :: (cs' ++ (',' :: (stringifyList (y :: ys) ++ ']' :: rest))) =
          (c :: cs') ++ ',' :: (stringifyList (y :: ys) ++ ']' :: rest) from rfl]
        rw [hx]
        simp [hrec]

/-- The field parser reads back exactly the serialized fields up to the
closing brace. -/
theorem parseFields_stringify (kvs : List (String × Json)) :
    ∀ (fuel : Nat) (rest : List Char),
    needFields kvs ≤ fuel →
    parseFields fuel (stringifyFields kvs ++ '\x7d' :: rest) = some (kvs, rest) := by
  intro fuel rest hfuel
  cases fuel with
  | zero => exact absurd hfuel (by have := needFields_pos kvs; omega)
  | succ f =>
    cases kvs with
    | nil =>
      rw [parseFields.eq_def]
      simp [stringifyFields]
    | cons kv kvs =>
      obtain ⟨k, v⟩ := kv
      simp only [needFields] at hfuel
      have hvv : needVal v ≤ f := by omega
      cases kvs with
      | nil =>
        have hx := parseVal_stringify v f ('\x7d' :: rest) hvv (by rfl)
        rw [parseFields.eq_def]
        simp only [stringifyFields, List.cons_append, List.append_assoc]
        simp only [parseStringBody_escape k.data
          (':' :: (stringifyChars v ++ '\x7d' :: rest))]
        simp [hx]
      | cons kv2 kvs2 =>
        have hks : needFields (kv2 :: kvs2) ≤ f := by omega
        have hx := parseVal_stringify v f
          (',' :: (stringifyFields (kv2 :: kvs2) ++ '\x7d' :: rest)) hvv (by rfl)
        have hrec := parseFields_stringify (kv2 :: kvs2) f rest hks
        rw [parseFields.eq_def]
        simp only [stringifyFields, List.cons_append, List.append_assoc]
        simp only [parseStringBody_escape k.data
          (':' :: (stringifyChars v ++ ',' :: (stringifyFields (kv2 :: kvs2) ++ '\x7d' :: rest)))]
        simp [hx, hrec]

end

/-- The serialization of a value is nonempty. -/
theorem stringify_length_pos (v : Json) : 1 ≤ (stringifyChars v).length := by
  obtain ⟨c, cs, heq, -, -, -⟩ := stringify_head_not_sep v
  rw [heq]
  simp

mutual

/-- The fuel bound of a value is at most its serialized length. -/
theorem needVal_le_len (v : Json) : needVal v ≤ (stringifyChars v).length := by
  cases v with
  | null => simp [needVal, stringifyChars]
  | bool b => cases b <;> simp [needVal, stringifyChars]
  | num n =>
    have := stringify_length_pos (.num n)
    simp only [needVal]
    omega
  | str s =>
    simp [needVal, stringifyChars]
  | arr xs =>
    have hx := needElems_le_len xs
    simp only [needVal, stringifyChars, List.length_cons, List.length_append,
      List.length_singleton]
    omega
  | obj kvs =>
    have hx := needFields_le_len kvs
    simp only [needVal, stringifyChars, List.length_cons, List.length_append,
      List.length_singleton]
    omega

/-- The fuel bound of an element list is within one of its serialized
length. -/
theorem needElems_le_len (xs : List Json) :
    needElems xs ≤ 1 + (stringifyList xs).length := by
  cases xs with
  | nil => simp [needElems, stringifyList]
  | cons x xs =>
    have hvx := needVal_le_len x
    have h1 := stringify_length_pos x
    cases xs with
    | nil =>
      simp only [needElems, stringifyList]
      omega
    | cons y ys =>
      have hys := needElems_le_len (y :: ys)
      simp only [needElems, stringifyList, List.length_append, List.length_cons]
      simp only [needElems] at hys
      omega

/-- The fuel bound of a field list is within one of its serialized
length. -/
theorem needFields_le_len (kvs : List (String × Json)) :
    needFields kvs ≤ 1 + (stringifyFields kvs).length := by
  cases kvs with
  | nil => simp [needFields, stringifyFields]
  | cons kv kvs =>
    obtain ⟨k, v⟩ := kv
    have hvv := needVal_le_len v
    have h1 := stringify_length_pos v
    cases kvs with
    | nil =>
      simp only [needFields, stringifyFields, List.length_cons, List.length_append]
      omega
    | cons kv2 kvs2 =>
      have hks := needFields_le_len (kv2 :: kvs2)
      simp only [needFields] at hks
      simp only [needFields, stringifyFields, List.length_append, List.length_cons]
      omega

end

/-- Length of a packed string. -/
theorem length_mk (l : List Char) : (String.mk l).length = l.length := rfl

/-- Data of a packed string. -/
theorem data_mk (l : List Char) : (String.mk l).data = l := rfl

/-- The JSON codec round-trips: parsing the serialization of any value
recovers the value exactly. -/
theorem parse_stringify (v : Json) : Json.parse (Json.stringify v) = some v := by
  have h1 : needVal v ≤ (stringifyChars v).length + 1 := by
    have := needVal_le_len v
    omega
  have h2 := parseVal_stringify v ((stringifyChars v).length + 1) [] h1 rfl
  rw [List.append_nil] at h2
  unfold Json.parse Json.stringify
  simp only [length_mk, data_mk]
  rw [h2]

/-! ## HTTP layer and client embedding (`src/mod.ts`, `ReplitDatabaseClient`) -/

/-- An HTTP response as the client observes it: status code, status text
and body text (already read; the client always reads bodies as text). -/
structure Response where
  status : Nat
  statusText : String
  body : String
deriving Repr, DecidableEq

/-- The fetch API `Response.ok`: whether the status is in the 200 to 299
range. -/
def Response.ok (r : Response) : Bool := decide (200 ≤ r.status ∧ r.status ≤ 299)

/-- A thrown JavaScript error, as the client code constructs them: a
`TypeError` for argument validation, an `Error` for remote or JSON
failures, each carrying its message. -/
inductive DbError where
  | typeError (message : String)
  | error (message : String)
deriving Repr, DecidableEq

/-- The stringified form of an error, as the legacy
`ReplitDatabaseClientErrorStack.print` renders one entry
(the JavaScript `name: message` shape). -/
def DbError.text : DbError → String
  | .typeError m => "TypeError: " ++ m
  | .error m => "Error: " ++ m

/-- The validation message thrown for an empty key
(`src/mod.ts` lines 95, 130, 232). -/
def emptyKeyMessage : String := "Argument `key` is not a string (non-empty)!"

/-- The remote-failure message of `ReplitDatabaseClient.delete`
(`src/mod.ts` line 102), carrying the key and the response status,
status text and body. -/
def deleteErrorMessage (key : String) (r : Response) : String :=
  "Unable to delete key `" ++ key ++ "` with status `" ++ toString r.status ++
    " " ++ r.statusText ++ "`: " ++ r.body

/-- The remote-failure message of `ReplitDatabaseClient.get`
(`src/mod.ts` line 138). -/
def getErrorMessage (key : String) (r : Response) : String :=
  "Unable to get the value from key `" ++ key ++ "` with status `" ++
    toString r.status ++ " " ++ r.statusText ++ "`: " ++ r.body

/-- The remote-failure message of `ReplitDatabaseClient.keys`
(`src/mod.ts` line 165). -/
def keysErrorMessage (r : Response) : String :=
  "Unable to get keys with status `" ++ toString r.status ++ " " ++
    r.statusText ++ "`: " ++ r.body

/-- The remote-failure message of the single-pair `ReplitDatabaseClient.set`
(`src/mod.ts` line 242). -/
def setErrorMessage (key : String) (r : Response) : String :=
  "Unable to set key `" ++ key ++ "` with status `" ++ toString r.status ++
    " " ++ r.statusText ++ "`: " ++ r.body

/-- Outcome of an operation: resolution, a single propagated error, or
the `AggregateError` wrapping the collected error stack
(`src/mod.ts` lines 112, 226). -/
inductive Outcome where
  | ok
  | single (e : DbError)
  | aggregate (errors : List DbError)
deriving Repr, DecidableEq

/-- The per-key result of the `delete` loop body (`src/mod.ts` lines 93
to 103): the validation error for an empty key, otherwise the remote
error unless the DELETE status is 204 or 404.  `remote` is the network
oracle answering `DELETE endpoint/key`. -/
def deleteStep (remote : String → Response) (key : String) : Option DbError :=
  if ¬ key.length > 0 then some (.typeError emptyKeyMessage)
  else if (remote key).status = 204 ∨ (remote key).status = 404 then none
  else some (.error (deleteErrorMessage key (remote key)))

/-- The batch loop of `ReplitDatabaseClient.delete` (`src/mod.ts` lines
90 to 114) over the flattened key list, carrying the error stack and
recording the keys attempted (loop body entered) and fetched (DELETE
issued).  With `allSettled` false the first error is thrown at once,
abandoning the loop; with `allSettled` true the error is pushed and the
loop continues, and when the loop ends a single `AggregateError` of the
stack is thrown exactly when the stack is nonempty. -/
def deleteLoop (remote : String → Response) (allSettled : Bool) :
    List String → List DbError → List String → List String →
    Outcome × List String × List String
  | [], stack, attempted, fetched =>
    ((if stack.isEmpty then .ok else .aggregate stack), attempted, fetched)
  | key :: keys, stack, attempted, fetched =>
    if ¬ key.length > 0 then
      if allSettled then
        deleteLoop remote allSettled keys (stack ++ [.typeError emptyKeyMessage])
          (attempted ++ [key]) fetched
      else (.single (.typeError emptyKeyMessage), attempted ++ [key], fetched)
    else if (remote key).status = 204 ∨ (remote key).status = 404 then
      deleteLoop remote allSettled keys stack (attempted ++ [key]) (fetched ++ [key])
    else
      if allSettled then
        deleteLoop remote allSettled keys
          (stack ++ [.error (deleteErrorMessage key (remote key))])
          (attempted ++ [key]) (fetched ++ [key])
      else (.single (.error (deleteErrorMessage key (remote key))),
        attempted ++ [key], fetched ++ [key])

/-- `ReplitDatabaseClient.delete` on a flattened key list: outcome,
attempted keys, fetched keys. -/
def deleteBatch (remote : String → Response) (allSettled : Bool)
    (keys : List String) : Outcome × List String × List String :=
  deleteLoop remote allSettled keys [] [] []

/-- Modelled from the legacy `ReplitDatabaseClientErrorStack.print`
(`src/unnamed/part_000` lines 13 to 17): deduplication of the collected
stringified messages, keeping first occurrences in order (`Array.from`
of a JavaScript `Set`). -/
def dedupMessages (msgs : List String) : List String :=
  msgs.foldl (fun acc m => if acc.contains m then acc else acc ++ [m]) []

/-- The per-pair result of the single-pair form of
`ReplitDatabaseClient.set` (`src/mod.ts` lines 230 to 244): validate the
key, POST the form-encoded pair, fail on a non-success status.
`remote` is the network oracle answering the POST for a key and value. -/
def setPair (remote : String → Json → Response) (key : String) (value : Json) :
    Option DbError :=
  if ¬ key.length > 0 then some (.typeError emptyKeyMessage)
  else if !(remote key value).ok then
    some (.error (setErrorMessage key (remote key value)))
  else none

/-- The table-form loop of `ReplitDatabaseClient.set` (`src/mod.ts`
lines 213 to 228): iterate the entries in order, delegating each to the
single-pair form, under the same `allSettled` policy as batch delete;
also records the single-pair invocations in order. -/
def setTableLoop (remote : String → Json → Response) (allSettled : Bool) :
    List (String × Json) → List DbError → List (String × Json) →
    Outcome × List (String × Json)
  | [], stack, calls => ((if stack.isEmpty then .ok else .aggregate stack), calls)
  | (k, v) :: entries, stack, calls =>
    match setPair remote k v with
    | none => setTableLoop remote allSettled entries stack (calls ++ [(k, v)])
    | some e =>
      if allSettled then
        setTableLoop remote allSettled entries (stack ++ [e]) (calls ++ [(k, v)])
      else (.single e, calls ++ [(k, v)])

/-- The runtime shapes of the first argument of `set`: a string key, or
a table (a `Map` or plain object, both iterated as ordered entry
lists). -/
inductive SetParam where
  | str (s : String)
  | table (entries : List (String × Json))

/-- Modelled from the JavaScript runtime: `Object.entries` over the
union type of `set`'s first argument.  On a table, its entries; on a
string, the indexed characters: index keys "0", "1", ... paired with
one-character strings (the embedding enumerates unicode scalars). -/
def objectEntries : SetParam → List (String × Json)
  | .table entries => entries
  | .str s => s.data.enum.map fun ic => (toString ic.1, Json.str (String.mk [ic.2]))

/-- `ReplitDatabaseClient.set` (`src/mod.ts` lines 212 to 244): the
dispatch inspects only whether the second argument is `undefined`
(`none`).  If so, the table branch iterates `Object.entries` of the
first argument; otherwise the single-pair branch casts the first
argument to a string key (on a table value the cast yields no `length`,
so the validation throws).  Returns the outcome and the single-pair
invocations performed. -/
def setDispatch (remote : String → Json → Response) (allSettled : Bool)
    (param0 : SetParam) (value : Option Json) : Outcome × List (String × Json) :=
  match value with
  | none => setTableLoop remote allSettled (objectEntries param0) [] []
  | some v =>
    match param0 with
    | .str key =>
      ((match setPair remote key v with
        | none => .ok
        | some e => .single e), [(key, v)])
    | .table _ => (.single (.typeError emptyKeyMessage), [])

/-- `ReplitDatabaseClient.get` (`src/mod.ts` lines 128 to 141): validate
the key, GET `endpoint/key`, throw on a non-success status with the
message carrying status, status text and body; an empty body resolves to
`undefined` (`none`), a non-empty body is JSON-decoded (a body
`JSON.parse` rejects throws, as in the source). -/
def getRun (remote : String → Response) (key : String) :
    Except DbError (Option Json) :=
  if ¬ key.length > 0 then .error (.typeError emptyKeyMessage)
  else
    let r := remote key
    if !r.ok then .error (.error (getErrorMessage key r))
    else if r.body.length > 0 then
      match Json.parse r.body with
      | some v => .ok (some v)
      | none => .error (.error ("SyntaxError: unexpected JSON input: " ++ r.body))
    else .ok none

/-- A key filter as `keys` accepts it: a prefix string, a predicate
function, or a regular expression (modelled by its match predicate;
regex semantics is a platform capability). -/
inductive KeysFilter where
  | byString (s : String)
  | byFunction (p : String → Bool)
  | byRegExp (p : String → Bool)

/-- Splitting on the separator pattern of `src/mod.ts` line 170: a
newline optionally preceded by a carriage return, with JavaScript
`String.split` semantics (`n` separators yield `n + 1` segments, so a
trailing separator yields a trailing empty segment). -/
def splitLines : List Char → List (List Char)
  | [] => [[]]
  | '\r' :: '\n' :: rest => [] :: splitLines rest
  | '\n' :: rest => [] :: splitLines rest
  | c :: rest =>
    match splitLines rest with
    | [] => [[c]]
    | l :: ls => (c :: l) :: ls

/-- Modelled from the spec: the percent-decoding capability
(`decodeURIComponent`), at code-unit level: a percent sign followed by
two hexadecimal digits becomes the character of that code, everything
else passes through (multi-byte sequences are represented per byte; the
claims exercise no malformed input). -/
def percentDecode : List Char → List Char
  | '%' :: a :: b :: rest =>
    if isHexChar a && isHexChar b then
      Char.ofNat (hexVal a * 16 + hexVal b) :: percentDecode rest
    else '%' :: percentDecode (a :: b :: rest)
  | c :: rest => c :: percentDecode rest
  | [] => []

/-- The decoded key list: the response body split on newlines, each
entry percent-decoded (`src/mod.ts` lines 170 to 172). -/
def decodeKeyList (body : String) : List String :=
  (splitLines body.data).map fun l => String.mk (percentDecode l)

/-- `ReplitDatabaseClient.keys` (`src/mod.ts` lines 155 to 183) on the
response of the listing request: throw on a non-success status; an empty
body yields no keys; otherwise split the body on newlines and
percent-decode each entry, then apply a function or regular-expression
filter client-side (a string filter was already applied server-side as
the prefix query parameter). -/
def keysRun (r : Response) (filter : KeysFilter) : Except DbError (List String) :=
  if !r.ok then .error (.error (keysErrorMessage r))
  else if r.body.length = 0 then .ok []
  else
    match filter with
    | .byFunction p => .ok ((decodeKeyList r.body).filter p)
    | .byString _ => .ok (decodeKeyList r.body)
    | .byRegExp p => .ok ((decodeKeyList r.body).filter p)

/-- JavaScript `Map.set`: update the value in place when the key is
present (keeping its position), append otherwise. -/
def mapSet (m : List (String × Json)) (k : String) (v : Json) :
    List (String × Json) :=
  if m.any (fun kv => kv.1 = k) then
    m.map (fun kv => if kv.1 = k then (k, v) else kv)
  else m ++ [(k, v)]

/-- The loop of `ReplitDatabaseClient.list` (`src/mod.ts` lines 189 to
198): for each listed key in order, fetch its value with `get`; a `get`
error propagates, an absent value (`undefined`) is skipped, a present
value is inserted into the result map.  Also records the keys fetched,
in order.  `g` is the `get` oracle for one key. -/
def listLoop (g : String → Except DbError (Option Json)) :
    List String → List (String × Json) → List String →
    Except DbError (List (String × Json)) × List String
  | [], acc, fetched => (.ok acc, fetched)
  | k :: ks, acc, fetched =>
    match g k with
    | .error e => (.error e, fetched ++ [k])
    | .ok none => listLoop g ks acc (fetched ++ [k])
    | .ok (some v) => listLoop g ks (mapSet acc k v) (fetched ++ [k])

/-- `ReplitDatabaseClient.list` over the keys returned by `keys`. -/
def listRun (g : String → Except DbError (Option Json)) (ks : List String) :
    Except DbError (List (String × Json)) × List String :=
  listLoop g ks [] []

/-- `ReplitDatabaseClient.entries` (`src/mod.ts` lines 120 to 122): the
entry iterator of the `list` map, in the map's insertion order. -/
def entriesRun (g : String → Except DbError (Option Json)) (ks : List String) :
    Except DbError (List (String × Json)) :=
  (listRun g ks).1

/-- `ReplitDatabaseClient.values` (`src/mod.ts` lines 259 to 261): the
value iterator of the `list` map, in the map's insertion order. -/
def valuesRun (g : String → Except DbError (Option Json)) (ks : List String) :
    Except DbError (List Json) :=
  (listRun g ks).1.map (List.map Prod.snd)

/-- One periodic refresh step of the background endpoint timer
(`src/mod.ts` lines 42 to 48): re-read the environment variable (an
absent variable reads as the empty string), parse it as a URL, replace
the stored endpoint on success; on failure the catch block is empty
("continue on error"), keeping the previous endpoint and throwing
nothing.  `parseUrl` is the URL-parsing capability (`new URL`), `none`
meaning the constructor throws. -/
def refreshStep (parseUrl : String → Option String)
    (envVar : Option String) (current : String) : String :=
  match parseUrl (envVar.getD "") with
  | some u => u
  | none => current

/-- Modelled from the spec: the server side of the wire protocol, for
the round-trip claim.  The store maps keys to stored text; `set` stores
the serialized JSON text of the value under the key, and `GET
endpoint/key` answers 200 with the stored text as body — the empty body
when no value is stored. -/
def Store := List (String × String)

/-- Modelled from the spec: the server-side effect of a successful
`set(key, value)`: the serialized JSON text of the value is stored under
the key. -/
def storeSet (st : Store) (key : String) (v : Json) : Store :=
  (key, Json.stringify v) :: st

/-- Modelled from the spec: the server response to `GET endpoint/key`:
status 200 with the stored text, the empty body when the key is
absent. -/
def storeGetResponse (st : Store) (key : String) : Response :=
  ⟨200, "OK", match List.lookup key st with | some t => t | none => ""⟩

/-! ## Loop characterizations -/

/-- A key whose step succeeds is nonempty and got a 204 or 404. -/
theorem deleteStep_none (remote : String → Response) (p : String)
    (h : deleteStep remote p = none) :
    p.length > 0 ∧ ((remote p).status = 204 ∨ (remote p).status = 404) := by
  unfold deleteStep at h
  by_cases h1 : ¬ p.length > 0
  · rw [if_pos h1] at h
    exact absurd h (by simp)
  · rw [if_neg h1] at h
    by_cases h2 : (remote p).status = 204 ∨ (remote p).status = 404
    · exact ⟨by omega, h2⟩
    · rw [if_neg h2] at h
      exact absurd h (by simp)

/-- The delete loop walks through a run of succeeding keys, extending
only the attempted and fetched traces. -/
theorem deleteLoop_none_pre (remote : String → Response) (allSettled : Bool)
    (pre : List String) (h : ∀ p ∈ pre, deleteStep remote p = none)
    (rest : List String) :
    ∀ stack attempted fetched,
      deleteLoop remote allSettled (pre ++ rest) stack attempted fetched =
        deleteLoop remote allSettled rest stack (attempted ++ pre) (fetched ++ pre) := by
  induction pre with
  | nil => intro stack attempted fetched; simp
  | cons p pre ih =>
    intro stack attempted fetched
    obtain ⟨hp1, hp2⟩ := deleteStep_none remote p (h p (List.mem_cons_self p pre))
    rw [List.cons_append, deleteLoop, if_neg (by omega), if_pos hp2]
    rw [ih (fun q hq => h q (List.mem_cons_of_mem p hq)) _ _ _]
    simp

/-- Under the settle-all policy the delete loop attempts every key,
fetches every nonempty key, collects every failing key's error in order,
and ends with the aggregate of the collected stack exactly when it is
nonempty. -/
theorem deleteLoop_allSettled_spec (remote : String → Response)
    (keys : List String) :
    ∀ stack attempted fetched,
      deleteLoop remote true keys stack attempted fetched =
        ((if (stack ++ keys.filterMap (deleteStep remote)).isEmpty then Outcome.ok
          else .aggregate (stack ++ keys.filterMap (deleteStep remote))),
         attempted ++ keys,
         fetched ++ keys.filter (fun k => decide (k.length > 0))) := by
  induction keys with
  | nil => intro stack attempted fetched; simp [deleteLoop]
  | cons k ks ih =>
    intro stack attempted fetched
    by_cases h1 : ¬ k.length > 0
    · have hstep : deleteStep remote k = some (.typeError emptyKeyMessage) := by
        unfold deleteStep
        rw [if_pos h1]
      rw [deleteLoop, if_pos h1, if_pos rfl, ih]
      simp [List.filterMap_cons, hstep, List.filter_cons, h1, List.append_assoc]
    · by_cases h2 : (remote k).status = 204 ∨ (remote k).status = 404
      · have hstep : deleteStep remote k = none := by
          unfold deleteStep
          rw [if_neg h1, if_pos h2]
        have h1p : 0 < k.length := by omega
        rw [deleteLoop, if_neg h1, if_pos h2, ih]
        simp [List.filterMap_cons, hstep, List.filter_cons, h1p, List.append_assoc]
      · have hstep : deleteStep remote k =
            some (.error (deleteErrorMessage k (remote k))) := by
          unfold deleteStep
          rw [if_neg h1, if_neg h2]
        have h1p : 0 < k.length := by omega
        rw [deleteLoop, if_neg h1, if_neg h2, if_pos rfl, ih]
        simp [List.filterMap_cons, hstep, List.filter_cons, h1p, List.append_assoc]

/-- Under the settle-all policy the table-form set loop invokes the
single-pair form for every entry in order, collects every failing
entry's error in order, and ends with the aggregate of the collected
stack exactly when it is nonempty. -/
theorem setTableLoop_allSettled_spec (remote : String → Json → Response)
    (entries : List (String × Json)) :
    ∀ stack calls,
      setTableLoop remote true entries stack calls =
        ((if (stack ++ entries.filterMap
              (fun e => setPair remote e.1 e.2)).isEmpty then Outcome.ok
          else .aggregate (stack ++ entries.filterMap
            (fun e => setPair remote e.1 e.2))),
         calls ++ entries) := by
  induction entries with
  | nil => intro stack calls; simp [setTableLoop]
  | cons kv entries ih =>
    obtain ⟨k, v⟩ := kv
    intro stack calls
    cases hstep : setPair remote k v with
    | none =>
      simp only [setTableLoop, hstep]
      rw [ih]
      simp only [List.filterMap_cons, hstep]
      simp [List.append_assoc]
    | some e =>
      simp only [setTableLoop, hstep, if_true]
      rw [ih]
      simp only [List.filterMap_cons, hstep]
      simp [List.append_assoc]

/-- When every entry's single-pair store succeeds, the table loop
invokes every entry in order and resolves silently under either
policy. -/
theorem setTableLoop_all_ok (remote : String → Json → Response)
    (allSettled : Bool) (entries : List (String × Json))
    (h : ∀ e ∈ entries, setPair remote e.1 e.2 = none) :
    ∀ stack calls,
      setTableLoop remote allSettled entries stack calls =
        ((if stack.isEmpty then Outcome.ok else .aggregate stack),
         calls ++ entries) := by
  induction entries with
  | nil => intro stack calls; simp [setTableLoop]
  | cons kv entries ih =>
    obtain ⟨k, v⟩ := kv
    intro stack calls
    have hstep : setPair remote k v = none := h (k, v) (List.mem_cons_self _ _)
    simp only [setTableLoop, hstep]
    rw [ih (fun e he => h e (List.mem_cons_of_mem _ he))]
    simp

/-- Inserting a key absent from the map appends the pair. -/
theorem mapSet_of_not_mem (m : List (String × Json)) (k : String) (v : Json)
    (h : ∀ kv ∈ m, kv.1 ≠ k) : mapSet m k v = m ++ [(k, v)] := by
  have hany : m.any (fun kv => kv.1 = k) = false := by
    rw [List.any_eq_false]
    intro kv hkv
    simp [h kv hkv]
  unfold mapSet
  rw [hany]
  simp

/-- The list loop over distinct, error-free keys fetches each key in
order and accumulates exactly the present key-value pairs in order. -/
theorem listLoop_spec (g : String → Except DbError (Option Json)) :
    ∀ (ks : List String), (∀ k ∈ ks, ∃ ov, g k = .ok ov) → ks.Nodup →
    ∀ (acc : List (String × Json)) (fetched : List String),
      (∀ kv ∈ acc, ∀ k ∈ ks, kv.1 ≠ k) →
      listLoop g ks acc fetched =
        (.ok (acc ++ ks.filterMap fun k =>
          match g k with
          | .ok (some v) => some (k, v)
          | _ => none),
         fetched ++ ks) := by
  intro ks
  induction ks with
  | nil => intro _ _ acc fetched _; simp [listLoop]
  | cons k ks ih =>
    intro hok hnd acc fetched hacc
    obtain ⟨ov, hov⟩ := hok k (List.mem_cons_self k ks)
    have hok2 : ∀ q ∈ ks, ∃ ov, g q = .ok ov := fun q hq =>
      hok q (List.mem_cons_of_mem k hq)
    have hnd2 : ks.Nodup := (List.nodup_cons.mp hnd).2
    have hkks : k ∉ ks := (List.nodup_cons.mp hnd).1
    cases ov with
    | none =>
      simp only [listLoop, hov]
      rw [ih hok2 hnd2 acc (fetched ++ [k])
        (fun kv hkv q hq => hacc kv hkv q (List.mem_cons_of_mem k hq))]
      simp [List.filterMap_cons, hov]
    | some v =>
      have hmap : mapSet acc k v = acc ++ [(k, v)] :=
        mapSet_of_not_mem acc k v
          (fun kv hkv => hacc kv hkv k (List.mem_cons_self k ks))
      have hacc2 : ∀ kv ∈ acc ++ [(k, v)], ∀ q ∈ ks, kv.1 ≠ q := by
        intro kv hkv q hq
        rcases List.mem_append.mp hkv with hin | hone
        · exact hacc kv hin q (List.mem_cons_of_mem k hq)
        · simp at hone
          subst hone
          simp only [ne_eq]
          intro he
          apply hkks
          rw [show k = q from he]
          exact hq
      simp only [listLoop, hov]
      rw [hmap, ih hok2 hnd2 (acc ++ [(k, v)]) (fetched ++ [k]) hacc2]
      simp [List.filterMap_cons, hov]

/-- A non-empty string has positive length. -/
theorem strLength_pos (s : String) (h : s ≠ "") : 0 < s.length := by
  rcases s with ⟨l⟩
  cases l with
  | nil => exact absurd rfl h
  | cons c cs => simp [String.length]

/-! ## The claims -/

/-- C1: for every non-empty key and every JSON value, a single-pair
`set` (which stores the serialized JSON text of the value server-side)
followed by `get` of the same key returns a value deep-equal to the one
stored. -/
theorem claim1_set_then_get_roundtrip (k : String) (hk : k ≠ "") (v : Json)
    (st : Store) :
    getRun (fun key => storeGetResponse (storeSet st k v) key) k =
      .ok (some v) := by
  have hk0 : 0 < k.length := strLength_pos k hk
  have hbody : (storeGetResponse (storeSet st k v) k).body = Json.stringify v := by
    simp [storeGetResponse, storeSet, List.lookup]
  have hok : (storeGetResponse (storeSet st k v) k).ok = true := rfl
  have hlen : 0 < (Json.stringify v).length := by
    unfold Json.stringify
    rw [length_mk]
    exact stringify_length_pos v
  unfold getRun
  rw [if_neg (by omega)]
  simp only [hok, hbody, Bool.not_true]
  rw [if_neg (by simp), if_pos (by omega)]
  rw [parse_stringify v]

/-- C1 witness: the round-trip at a concrete key and a concrete nested
value on the empty store. -/
theorem claim1_witness :
    getRun (fun key => storeGetResponse (storeSet [] "foo"
      (Json.arr [Json.num (-42), Json.str "a\"b", Json.obj [("x", Json.null)],
        Json.bool true])) key) "foo" =
      .ok (some (Json.arr [Json.num (-42), Json.str "a\"b",
        Json.obj [("x", Json.null)], Json.bool true])) :=
  claim1_set_then_get_roundtrip "foo" (by decide) _ []

/-- C2: under the fail-fast policy, when every key before position i
succeeds and the i-th key fails (validation or remote), the batch ends
at once with exactly the i-th key's single error; the attempted keys are
exactly the prefix up to and including position i, so no later key is
ever attempted, and the fetched keys are the prefix plus the i-th key
when it was nonempty. -/
theorem claim2_failfast_aborts (remote : String → Response)
    (pre : List String) (k : String) (post : List String) (e : DbError)
    (hpre : ∀ p ∈ pre, deleteStep remote p = none)
    (hk : deleteStep remote k = some e) :
    deleteBatch remote false (pre ++ k :: post) =
      (.single e, pre ++ [k], pre ++ if 0 < k.length then [k] else []) := by
  unfold deleteBatch
  rw [deleteLoop_none_pre remote false pre hpre (k :: post) [] [] []]
  simp only [List.nil_append]
  unfold deleteStep at hk
  by_cases h1 : ¬ k.length > 0
  · rw [if_pos h1] at hk
    have he := Option.some.inj hk
    subst he
    rw [deleteLoop, if_pos h1]
    simp [h1]
  · rw [if_neg h1] at hk
    by_cases h2 : (remote k).status = 204 ∨ (remote k).status = 404
    · rw [if_pos h2] at hk
      exact absurd hk (by simp)
    · rw [if_neg h2] at hk
      have he := Option.some.inj hk
      subst he
      rw [deleteLoop, if_neg h1, if_neg h2]
      simp [show 0 < k.length by omega]

/-- C2 witness: with the first key succeeding and the second failing
remotely, the batch propagates the second key's error and the third key
is never attempted. -/
theorem claim2_witness :
    deleteBatch
      (fun s => if s = "a" then ⟨204, "No Content", ""⟩ else ⟨500, "ISE", "boom"⟩)
      false ["a", "x", "y"] =
      (.single (.error (deleteErrorMessage "x" ⟨500, "ISE", "boom"⟩)),
        ["a", "x"], ["a", "x"]) := by
  have h := claim2_failfast_aborts
    (fun s => if s = "a" then ⟨204, "No Content", ""⟩ else ⟨500, "ISE", "boom"⟩)
    ["a"] "x" ["y"]
    (.error (deleteErrorMessage "x" ⟨500, "ISE", "boom"⟩))
    (by decide) (by decide)
  simpa using h

/-- C3: under the settle-all policy, every key of a batch delete and
every entry of a table-form set is attempted regardless of earlier
failures, and the operation ends with a single aggregate error exactly
when at least one item failed, resolving silently otherwise. -/
theorem claim3_allSettled_attempts_all (remote : String → Response)
    (keys : List String) (remoteS : String → Json → Response)
    (entries : List (String × Json)) :
    (deleteBatch remote true keys).2.1 = keys ∧
    (deleteBatch remote true keys).1 =
      (if keys.filterMap (deleteStep remote) = [] then Outcome.ok
       else .aggregate (keys.filterMap (deleteStep remote))) ∧
    (setDispatch remoteS true (.table entries) none).2 = entries ∧
    (setDispatch remoteS true (.table entries) none).1 =
      (if entries.filterMap (fun e => setPair remoteS e.1 e.2) = [] then
        Outcome.ok
       else .aggregate (entries.filterMap (fun e => setPair remoteS e.1 e.2))) := by
  unfold deleteBatch setDispatch objectEntries
  rw [deleteLoop_allSettled_spec, setTableLoop_allSettled_spec]
  refine ⟨by simp, ?_, by simp, ?_⟩
  · simp only [List.nil_append, List.isEmpty_iff]
  · simp only [List.nil_append, List.isEmpty_iff]

/-- C4 counterexample: a batch delete of two empty keys under the
settle-all policy raises an aggregate wrapping the equal-message
validation failure twice, whereas deduplication by stringified message
would keep a single entry. -/
theorem claim4_counterexample :
    (deleteBatch (fun _ => ⟨204, "No Content", ""⟩) true ["", ""]).1 =
      .aggregate [.typeError emptyKeyMessage, .typeError emptyKeyMessage] ∧
    dedupMessages [(DbError.typeError emptyKeyMessage).text,
        (DbError.typeError emptyKeyMessage).text] =
      [(DbError.typeError emptyKeyMessage).text] :=
  ⟨rfl, rfl⟩

/-- C4 amended: under the settle-all policy with at least one failure,
the aggregate raised by a batch delete or table-form set wraps all
underlying failures as an ordered list in occurrence order without
deduplication, so failures with equal stringified messages each
appear. -/
theorem claim4_aggregate_keeps_all (remote : String → Response)
    (keys : List String) (remoteS : String → Json → Response)
    (entries : List (String × Json))
    (hd : keys.filterMap (deleteStep remote) ≠ [])
    (hs : entries.filterMap (fun e => setPair remoteS e.1 e.2) ≠ []) :
    (deleteBatch remote true keys).1 =
      .aggregate (keys.filterMap (deleteStep remote)) ∧
    (setDispatch remoteS true (.table entries) none).1 =
      .aggregate (entries.filterMap (fun e => setPair remoteS e.1 e.2)) := by
  unfold deleteBatch setDispatch objectEntries
  rw [deleteLoop_allSettled_spec, setTableLoop_allSettled_spec]
  constructor
  · simp only [List.nil_append]
    rw [if_neg (by simpa [List.isEmpty_iff] using hd)]
  · simp only [List.nil_append]
    rw [if_neg (by simpa [List.isEmpty_iff] using hs)]

/-- C4 amended witness: a failing delete of the duplicated key and a
failing one-entry table set, each aggregating the full failure list. -/
theorem claim4_witness :
    (deleteBatch (fun _ => ⟨500, "ISE", "x"⟩) true ["a", "a"]).1 =
      .aggregate [.error (deleteErrorMessage "a" ⟨500, "ISE", "x"⟩),
        .error (deleteErrorMessage "a" ⟨500, "ISE", "x"⟩)] ∧
    (setDispatch (fun _ _ => ⟨500, "ISE", "x"⟩) true
        (.table [("a", Json.null)]) none).1 =
      .aggregate [.error (setErrorMessage "a" ⟨500, "ISE", "x"⟩)] :=
  claim4_aggregate_keeps_all (fun _ => ⟨500, "ISE", "x"⟩) ["a", "a"]
    (fun _ _ => ⟨500, "ISE", "x"⟩) [("a", Json.null)] (by decide) (by decide)

/-- C5: for a non-empty key, `get` maps a non-success response to the
remote error carrying status, status text and body, a successful
response with empty body to absent, and a successful response with a
decodable non-empty body to its JSON-decoded value. -/
theorem claim5_get_decodes (remote : String → Response) (k : String)
    (hk : k ≠ "") :
    ((remote k).ok = false →
      getRun remote k = .error (.error (getErrorMessage k (remote k)))) ∧
    ((remote k).ok = true → (remote k).body = "" → getRun remote k = .ok none) ∧
    (∀ v, (remote k).ok = true → (remote k).body ≠ "" →
      Json.parse (remote k).body = some v → getRun remote k = .ok (some v)) := by
  have hk0 : 0 < k.length := strLength_pos k hk
  refine ⟨?_, ?_, ?_⟩
  · intro hbad
    unfold getRun
    rw [if_neg (by omega)]
    simp [hbad]
  · intro hok hempty
    unfold getRun
    rw [if_neg (by omega)]
    simp [hok, hempty]
  · intro v hok hne hparse
    have hblen : 0 < (remote k).body.length := strLength_pos _ hne
    unfold getRun
    rw [if_neg (by omega)]
    simp only [hok, Bool.not_true]
    rw [if_neg (by simp), if_pos (by omega), hparse]

/-- C5 witness: a successful response with the body `[1]` decodes to the
one-element array. -/
theorem claim5_witness :
    getRun (fun _ => ⟨200, "OK", "[1]"⟩) "a" = .ok (some (Json.arr [Json.num 1])) :=
  (claim5_get_decodes (fun _ => ⟨200, "OK", "[1]"⟩) "a" (by decide)).2.2
    (Json.arr [Json.num 1]) rfl (by decide) rfl

/-- C6: for a non-empty key, a single-key delete resolves exactly when
the DELETE status is 204 or 404 — so deleting an already-absent key
(a 404) succeeds — and any other status yields the remote error for that
key. -/
theorem claim6_delete_status (remote : String → Response) (k : String)
    (hk : k ≠ "") :
    ((deleteBatch remote false [k]).1 = .ok ↔
      (remote k).status = 204 ∨ (remote k).status = 404) ∧
    (¬((remote k).status = 204 ∨ (remote k).status = 404) →
      (deleteBatch remote false [k]).1 =
        .single (.error (deleteErrorMessage k (remote k)))) := by
  have hk0 : 0 < k.length := strLength_pos k hk
  unfold deleteBatch
  by_cases h2 : (remote k).status = 204 ∨ (remote k).status = 404
  · rw [deleteLoop, if_neg (by omega), if_pos h2]
    simp [deleteLoop, h2]
  · rw [deleteLoop, if_neg (by omega), if_neg h2]
    simp [h2]

/-- C6 witness: deleting an absent key, a 404 response, resolves. -/
theorem claim6_witness :
    (deleteBatch (fun _ => ⟨404, "Not Found", ""⟩) false ["k"]).1 = .ok :=
  (claim6_delete_status (fun _ => ⟨404, "Not Found", ""⟩) "k" (by decide)).1.mpr
    (Or.inr rfl)

/-- C7 counterexample: on a successful response whose body lists two
keys, `keys` with a predicate filter rejecting everything returns the
empty sequence, not the split and percent-decoded body — so the claim
does not hold for every filter. -/
theorem claim7_counterexample :
    keysRun ⟨200, "OK", "a\nb"⟩ (.byFunction (fun _ => false)) = .ok [] ∧
    (splitLines ("a\nb" : String).data).map
      (fun l => String.mk (percentDecode l)) = ["a", "b"] :=
  ⟨rfl, rfl⟩

/-- C7 amended: on a successful listing response, `keys` returns the
empty sequence when the body is empty (under every filter); otherwise,
with a string filter it returns exactly the body split on newlines with
each entry percent-decoded, preserving the body's order, and with a
predicate or regular-expression filter it returns that decoded list
filtered client-side, still in the body's order. -/
theorem claim7_keys_decodes (r : Response) (fs : String) (p : String → Bool)
    (hok : r.ok = true) :
    (r.body = "" → ∀ filter, keysRun r filter = .ok []) ∧
    (r.body ≠ "" → keysRun r (.byString fs) = .ok (decodeKeyList r.body)) ∧
    (r.body ≠ "" → keysRun r (.byFunction p) =
      .ok ((decodeKeyList r.body).filter p)) ∧
    (r.body ≠ "" → keysRun r (.byRegExp p) =
      .ok ((decodeKeyList r.body).filter p)) ∧
    decodeKeyList r.body =
      (splitLines r.body.data).map (fun l => String.mk (percentDecode l)) := by
  have hempty : r.body = "" → ∀ filter, keysRun r filter = .ok [] := by
    intro hb filter
    unfold keysRun
    simp [hok, hb]
  refine ⟨hempty, ?_, ?_, ?_, rfl⟩ <;>
    (intro hb
     have hblen : 0 < r.body.length := strLength_pos _ hb
     unfold keysRun
     simp only [hok, Bool.not_true]
     rw [if_neg (by simp), if_neg (by omega)])

/-- C7 witness: the body with one percent-encoded entry and one plain
entry decodes, under the string filter, to the two keys in order. -/
theorem claim7_witness :
    keysRun ⟨200, "OK", "a%41\nb"⟩ (.byString "") = .ok ["aA", "b"] :=
  (claim7_keys_decodes ⟨200, "OK", "a%41\nb"⟩ "" (fun _ => true) rfl).2.1
    (by decide)

/-- C8: over distinct error-free keys, `list` fetches every listed key
in order and keeps exactly the present values as ordered entries,
omitting the keys whose value is absent; `entries` returns the same
ordered entries and `values` their values in the same order. -/
theorem claim8_list_projections (g : String → Except DbError (Option Json))
    (ks : List String) (hok : ∀ k ∈ ks, ∃ ov, g k = .ok ov)
    (hnd : ks.Nodup) :
    (listRun g ks).1 = .ok (ks.filterMap fun k =>
      match g k with
      | .ok (some v) => some (k, v)
      | _ => none) ∧
    (listRun g ks).2 = ks ∧
    entriesRun g ks = .ok (ks.filterMap fun k =>
      match g k with
      | .ok (some v) => some (k, v)
      | _ => none) ∧
    valuesRun g ks = .ok ((ks.filterMap fun k =>
      match g k with
      | .ok (some v) => some (k, v)
      | _ => none).map Prod.snd) := by
  have h := listLoop_spec g ks hok hnd [] [] (by simp)
  unfold listRun at *
  unfold entriesRun valuesRun listRun
  rw [h]
  simp [Except.map]

/-- The concrete `get` oracle of the C8 witness: key "a" present, key
"b" absent, key "c" present. -/
def listOracleW : String → Except DbError (Option Json) := fun k =>
  if k = "a" then .ok (some (Json.num 1))
  else if k = "b" then .ok none
  else .ok (some (Json.str "z"))

/-- C8 witness: with "b" absent, the listed entries are exactly the
present pairs in listing order. -/
theorem claim8_witness :
    (listRun listOracleW ["a", "b", "c"]).1 =
      .ok [("a", Json.num 1), ("c", Json.str "z")] := by
  have h := (claim8_list_projections listOracleW ["a", "b", "c"]
    (by
      intro k hk
      fin_cases hk
      · exact ⟨some (Json.num 1), rfl⟩
      · exact ⟨none, rfl⟩
      · exact ⟨some (Json.str "z"), rfl⟩)
    (by decide)).1
  exact h

/-- C9: every periodic endpoint-refresh step either replaces the stored
endpoint with the successfully re-parsed environment value or, when
parsing fails, keeps the previous endpoint; the step is a total function
and surfaces no error in either case. -/
theorem claim9_refresh_replace_or_retain (parseUrl : String → Option String)
    (envVar : Option String) (current : String) :
    (∀ u, parseUrl (envVar.getD "") = some u →
      refreshStep parseUrl envVar current = u) ∧
    (parseUrl (envVar.getD "") = none →
      refreshStep parseUrl envVar current = current) := by
  constructor
  · intro u hu
    unfold refreshStep
    rw [hu]
  · intro hn
    unfold refreshStep
    rw [hn]

/-- The URL-parsing capability of the C9 witness: the empty string is
not a URL, everything else parses to itself. -/
def parseUrlW : String → Option String := fun s => if s = "" then none else some s

/-- C9 witness: a present value replaces the endpoint, an absent
variable (parsing the empty string fails) keeps the previous one. -/
theorem claim9_witness :
    refreshStep parseUrlW (some "https://kv.replit.com/v0/abc") "old" =
      "https://kv.replit.com/v0/abc" ∧
    refreshStep parseUrlW none "old" = "old" :=
  ⟨(claim9_refresh_replace_or_retain parseUrlW
      (some "https://kv.replit.com/v0/abc") "old").1 _ (by decide),
   (claim9_refresh_replace_or_retain parseUrlW none "old").2 (by decide)⟩

/-- C10 amended: the dispatch of `set` inspects only whether the second
argument is absent (`undefined`): with no value, every first argument
takes the table branch iterating its `Object.entries`, a string argument
being iterated as its indexed characters (keys "0", "1", ... paired with
the one-character strings), every such entry being invoked as a
single-pair store under the settle-all policy; the single-pair branch is
never taken, though an iterated index key can coincide with the first
argument itself (for example "0"). -/
theorem claim10_dispatch_on_undefined (remoteS : String → Json → Response)
    (allSettled : Bool) (p : SetParam) (k : String) :
    setDispatch remoteS allSettled p none =
      setTableLoop remoteS allSettled (objectEntries p) [] [] ∧
    (setDispatch remoteS true (.str k) none).2 = objectEntries (.str k) ∧
    objectEntries (.str k) =
      k.data.enum.map (fun ic => (toString ic.1, Json.str (String.mk [ic.2]))) := by
  refine ⟨rfl, ?_, rfl⟩
  unfold setDispatch
  rw [setTableLoop_allSettled_spec]
  simp

/-- C10 counterexample: with the string "0" as first argument and no
second argument, the table branch performs a single-pair store at the
key "0" — the first argument itself — refuting that a single-pair store
at the first argument never happens. -/
theorem claim10_counterexample :
    (setDispatch (fun _ _ => ⟨200, "OK", ""⟩) false (.str "0") none).2 =
      [("0", Json.str "0")] := rfl

end ReplitDb
